import Mathlib

/-!
Verification of the OCR-2.0 quotation pipeline.

This file gives a shallow embedding, in Lean 4, of the algorithmic core of
the repository:

* `calculateTotals` from `src/services/quotationService.js` (quotation
  arithmetic over a list of line items);
* `generateQuotationNumber` from `src/services/quotationService.js`
  (find-latest-then-increment numbering) and the timestamp-based variant
  from `src/services/matchingService.js`;
* `SmartProductMatcher` from `src/src/utils/smartProductMatcher.js`
  (`parseOCRText`, `cleanProductText`, `isNoise`, `findMatches`,
  `findCategoryMatches`, `findKeywordMatches`, and the per-item step of
  `processOCRText`).

JavaScript numbers are modelled by exact rationals (`ℚ`): the algebraic
identities asserted of the totals hold exactly in this idealisation (the
original claims only demand them up to floating-point epsilon).  The
external Fuse.js similarity search is a parameter (a function from query
strings to scored results); everything else is translated from the source.
-/

/-! ## Quotation totals (`src/services/quotationService.js`, `calculateTotals`) -/

/-- One input line item of `calculateTotals`.  The fields are the ones the
controller (`createQuotation`) puts on each element of `itemsWithDetails`
before calling `calculateTotals`. -/
structure QuotationItem where
  product : String
  productName : String
  units : String
  quantity : ℚ
  price : ℚ
  discountPercentage : ℚ
  gstPercentage : ℚ
deriving Repr, DecidableEq

/-- `item.price * item.quantity` — the `itemPrice` local of `calculateTotals`. -/
def itemPriceOf (i : QuotationItem) : ℚ := i.price * i.quantity

/-- `itemPrice * (item.discountPercentage / 100)` — the `discountAmount` local. -/
def discountAmountOf (i : QuotationItem) : ℚ :=
  itemPriceOf i * (i.discountPercentage / 100)

/-- `itemPrice - discountAmount` — the `netPrice` local. -/
def netPriceOf (i : QuotationItem) : ℚ := itemPriceOf i - discountAmountOf i

/-- `netPrice * (item.gstPercentage / 100)` — the `taxAmount` local. -/
def taxAmountOf (i : QuotationItem) : ℚ := netPriceOf i * (i.gstPercentage / 100)

/-- `netPrice + taxAmount` — the `itemTotal` local. -/
def itemTotalOf (i : QuotationItem) : ℚ := netPriceOf i + taxAmountOf i

/-- One element of the `processedItems` array: the JavaScript spread
`{ ...item, netPrice, taxAmount, itemTotal }` keeps every input field
(held here in `base`) and adds the three derived fields. -/
structure ProcessedItem where
  base : QuotationItem
  netPrice : ℚ
  taxAmount : ℚ
  itemTotal : ℚ
deriving Repr, DecidableEq

/-- The record returned by `calculateTotals`. -/
structure TotalsResult where
  processedItems : List ProcessedItem
  subtotal : ℚ
  totalDiscountAmount : ℚ
  totalGstAmount : ℚ
  grandTotal : ℚ
deriving Repr, DecidableEq

/-- The body of the `items.map` callback together with the three
accumulator updates (`subtotal += itemPrice`,
`totalDiscountAmount += discountAmount`, `totalGstAmount += taxAmount`):
one step of the single pass of `calculateTotals`. -/
def totalsStep (acc : List ProcessedItem × ℚ × ℚ × ℚ) (item : QuotationItem) :
    List ProcessedItem × ℚ × ℚ × ℚ :=
  (acc.1 ++ [⟨item, netPriceOf item, taxAmountOf item, itemTotalOf item⟩],
   acc.2.1 + itemPriceOf item,
   acc.2.2.1 + discountAmountOf item,
   acc.2.2.2 + taxAmountOf item)

/-- `calculateTotals` from `src/services/quotationService.js`: a single pass
over the items accumulates `subtotal`, `totalDiscountAmount`,
`totalGstAmount` while building `processedItems`; afterwards
`grandTotal = subtotal - totalDiscountAmount + totalGstAmount`.
There is no validation of any kind in the source: every input list is
processed. -/
def calculateTotals (items : List QuotationItem) : TotalsResult :=
  let r := items.foldl totalsStep ([], 0, 0, 0)
  { processedItems := r.1
    subtotal := r.2.1
    totalDiscountAmount := r.2.2.1
    totalGstAmount := r.2.2.2
    grandTotal := r.2.1 - r.2.2.1 + r.2.2.2 }

/-- The value of one element of `processedItems`, as a direct map. -/
def processQuotationItem (i : QuotationItem) : ProcessedItem :=
  ⟨i, netPriceOf i, taxAmountOf i, itemTotalOf i⟩

theorem sum_map_add {α : Type} (l : List α) (f g : α → ℚ) :
    (l.map fun i => f i + g i).sum = (l.map f).sum + (l.map g).sum := by
  induction l with
  | nil => simp
  | cons x xs ih => simp [ih]; ring

theorem sum_map_sub {α : Type} (l : List α) (f g : α → ℚ) :
    (l.map fun i => f i - g i).sum = (l.map f).sum - (l.map g).sum := by
  induction l with
  | nil => simp
  | cons x xs ih => simp [ih]; ring

/-- Closed form of the accumulating fold inside `calculateTotals`. -/
theorem totals_foldl_eq (items : List QuotationItem)
    (l : List ProcessedItem) (a b c : ℚ) :
    items.foldl totalsStep (l, a, b, c) =
      (l ++ items.map processQuotationItem,
       a + (items.map itemPriceOf).sum,
       b + (items.map discountAmountOf).sum,
       c + (items.map taxAmountOf).sum) := by
  induction items generalizing l a b c with
  | nil => simp
  | cons x xs ih =>
      simp only [List.foldl_cons, List.map_cons, List.sum_cons, totalsStep, ih,
        List.cons_append, List.append_assoc]
      refine Prod.ext ?_ (Prod.ext ?_ (Prod.ext ?_ ?_)) <;>
        simp [processQuotationItem] <;> ring

/-- `calculateTotals` in the direct (map-and-sum) form. -/
theorem calculateTotals_eq (items : List QuotationItem) :
    calculateTotals items =
      { processedItems := items.map processQuotationItem
        subtotal := (items.map itemPriceOf).sum
        totalDiscountAmount := (items.map discountAmountOf).sum
        totalGstAmount := (items.map taxAmountOf).sum
        grandTotal := (items.map itemPriceOf).sum
          - (items.map discountAmountOf).sum + (items.map taxAmountOf).sum } := by
  have h := totals_foldl_eq items [] 0 0 0
  simp only [calculateTotals, h]
  simp

theorem grand_eq_sum_itemTotals (items : List QuotationItem) :
    (items.map itemPriceOf).sum - (items.map discountAmountOf).sum
      + (items.map taxAmountOf).sum = (items.map itemTotalOf).sum := by
  induction items with
  | nil => simp
  | cons x xs ih =>
      simp only [List.map_cons, List.sum_cons]
      rw [← ih]
      simp only [itemTotalOf, netPriceOf]
      ring

/-- C1: the totals computed by `calculateTotals` satisfy
`subtotal = Σ(price·quantity)`,
`totalDiscountAmount = Σ(price·quantity − netPrice)`,
`totalGstAmount = Σ taxAmount`,
`grandTotal = subtotal − totalDiscountAmount + totalGstAmount`, and
`grandTotal = Σ itemTotal` over the processed items.  Over exact rationals
the identities hold exactly (hence in particular within any positive
epsilon). -/
theorem calculateTotals_aggregate_identities (items : List QuotationItem) :
    (calculateTotals items).subtotal = (items.map fun i => i.price * i.quantity).sum ∧
    (calculateTotals items).totalDiscountAmount =
      ((calculateTotals items).processedItems.map
        fun p => p.base.price * p.base.quantity - p.netPrice).sum ∧
    (calculateTotals items).totalGstAmount =
      ((calculateTotals items).processedItems.map fun p => p.taxAmount).sum ∧
    (calculateTotals items).grandTotal =
      (calculateTotals items).subtotal - (calculateTotals items).totalDiscountAmount
        + (calculateTotals items).totalGstAmount ∧
    (calculateTotals items).grandTotal =
      ((calculateTotals items).processedItems.map fun p => p.itemTotal).sum := by
  refine ⟨?_, ?_, ?_, ?_, ?_⟩
  · simp only [calculateTotals_eq]
    rfl
  · simp only [calculateTotals_eq, List.map_map]
    congr 1
    congr 1
    funext i
    simp only [Function.comp_apply, processQuotationItem, discountAmountOf, netPriceOf,
      itemPriceOf]
    ring
  · simp only [calculateTotals_eq, List.map_map]
    rfl
  · simp only [calculateTotals_eq]
  · simp only [calculateTotals_eq, List.map_map]
    have hco : ((fun p : ProcessedItem => p.itemTotal) ∘ processQuotationItem) = itemTotalOf := by
      funext i
      rfl
    rw [hco, grand_eq_sum_itemTotals]

/-- C2: every processed line item satisfies
`netPrice = price·quantity·(1 − discountPercentage/100)`,
`taxAmount = netPrice·gstPercentage/100`, and
`itemTotal = netPrice + taxAmount`. -/
theorem calculateTotals_line_fields (items : List QuotationItem) (p : ProcessedItem)
    (hp : p ∈ (calculateTotals items).processedItems) :
    p.netPrice = p.base.price * p.base.quantity * (1 - p.base.discountPercentage / 100) ∧
    p.taxAmount = p.netPrice * (p.base.gstPercentage / 100) ∧
    p.itemTotal = p.netPrice + p.taxAmount := by
  rw [calculateTotals_eq] at hp
  simp only [List.mem_map] at hp
  obtain ⟨i, _, rfl⟩ := hp
  refine ⟨?_, ?_, ?_⟩
  · simp only [processQuotationItem, netPriceOf, discountAmountOf, itemPriceOf]
    ring
  · rfl
  · rfl

/-- The single item of the spec's worked Example 1: price 2500, quantity 5,
discount 5 %, GST 18 %. -/
def exampleItem : QuotationItem :=
  { product := "wire-10", productName := "10 sq mm wire", units := "nos"
    quantity := 5, price := 2500, discountPercentage := 5, gstPercentage := 18 }

theorem calculateTotals_line_fields_witness :
    processQuotationItem exampleItem ∈ (calculateTotals [exampleItem]).processedItems ∧
    ((processQuotationItem exampleItem).netPrice =
        (processQuotationItem exampleItem).base.price *
          (processQuotationItem exampleItem).base.quantity *
          (1 - (processQuotationItem exampleItem).base.discountPercentage / 100) ∧
      (processQuotationItem exampleItem).taxAmount =
        (processQuotationItem exampleItem).netPrice *
          ((processQuotationItem exampleItem).base.gstPercentage / 100) ∧
      (processQuotationItem exampleItem).itemTotal =
        (processQuotationItem exampleItem).netPrice +
          (processQuotationItem exampleItem).taxAmount) :=
  ⟨by simp [calculateTotals_eq],
   calculateTotals_line_fields [exampleItem] _ (by simp [calculateTotals_eq])⟩

/-- C10: `calculateTotals` is a frame-preserving map: the processed list has
the same length and order as the input, and projecting each processed item
back to its input fields recovers the input list exactly (only `netPrice`,
`taxAmount`, `itemTotal` are added by the spread `{ ...item, ... }`). -/
theorem calculateTotals_preserves_input (items : List QuotationItem) :
    ((calculateTotals items).processedItems.map fun p => p.base) = items ∧
    (calculateTotals items).processedItems.length = items.length := by
  constructor
  · simp only [calculateTotals_eq, List.map_map]
    have hco : ((fun p : ProcessedItem => p.base) ∘ processQuotationItem) = id := by
      funext i
      rfl
    rw [hco, List.map_id]
  · simp [calculateTotals_eq]

/-- An item violating every validation rule of claim C9: zero/negative
quantity and price, discount outside [0,100], negative tax percentage. -/
def invalidItem : QuotationItem :=
  { product := "bad", productName := "bad item", units := "nos"
    quantity := -2, price := -5, discountPercentage := 150, gstPercentage := -10 }

/-- C9 counterexample: `calculateTotals` raises no validation error on an
item with negative quantity and price, discount percentage 150 and tax
percentage −10 — it computes a definite totals record for it (the source
contains no validation at all, so the rejection claimed by C9 never
happens). -/
theorem calculateTotals_accepts_invalid_input :
    calculateTotals [invalidItem] =
      { processedItems := [⟨invalidItem, -5, 1/2, -9/2⟩]
        subtotal := 10
        totalDiscountAmount := 15
        totalGstAmount := 1/2
        grandTotal := -9/2 } := by
  simp only [calculateTotals_eq, List.map_cons, List.map_nil, List.sum_cons, List.sum_nil]
  simp only [processQuotationItem, itemTotalOf, taxAmountOf, netPriceOf, discountAmountOf,
    itemPriceOf, invalidItem]
  norm_num

/-- C9 amended: `calculateTotals` performs no input validation whatsoever:
for every item list — including lists with non-positive quantities or
prices and out-of-range percentages — it unconditionally returns the
record computed by the per-line formulas and their sums. -/
theorem calculateTotals_unconditional (items : List QuotationItem) :
    calculateTotals items =
      { processedItems := items.map processQuotationItem
        subtotal := (items.map itemPriceOf).sum
        totalDiscountAmount := (items.map discountAmountOf).sum
        totalGstAmount := (items.map taxAmountOf).sum
        grandTotal := (items.map itemPriceOf).sum
          - (items.map discountAmountOf).sum + (items.map taxAmountOf).sum } := by
  have h := totals_foldl_eq items [] 0 0 0
  simp only [calculateTotals, h]
  simp

/-! ## Quotation numbering (`src/services/quotationService.js`,
`generateQuotationNumber`, and the timestamp variant in
`src/services/matchingService.js`) -/

/-- `String(sequence).padStart(4, '0')`. -/
def padStart4 (s : String) : String :=
  if s.length ≥ 4 then s else String.mk (List.replicate (4 - s.length) '0') ++ s

/-- JavaScript `parseInt(s, 10)` restricted to the happy path: the value of
the maximal leading run of decimal digits, `none` when there is none (the
`NaN` outcome). -/
def jsParseIntNat (s : String) : Option Nat :=
  let ds := s.data.takeWhile Char.isDigit
  if ds.isEmpty then none
  else some (ds.foldl (fun n c => n * 10 + (c.toNat - '0'.toNat)) 0)

/-- Whether `pre` is a leading segment of `l` (the anchored regular
expression test of the `findOne` query). -/
def leadsWith : List Char → List Char → Bool
  | [], _ => true
  | _ :: _, [] => false
  | c :: cs, d :: ds => c == d && leadsWith cs ds

/-- Byte-wise lexicographic comparison of (ASCII) strings, as used by the
database when sorting `quotationNumber` descending. -/
def charListLt : List Char → List Char → Bool
  | [], [] => false
  | [], _ :: _ => true
  | _ :: _, [] => false
  | c :: cs, d :: ds => if c < d then true else if d < c then false else charListLt cs ds

/-- JavaScript `s.split('-')`. -/
def splitOnDashAux : List Char → List Char → List String
  | [], acc => [String.mk acc.reverse]
  | c :: cs, acc =>
      if c = '-' then String.mk acc.reverse :: splitOnDashAux cs []
      else splitOnDashAux cs (c :: acc)

def splitOnDash (s : String) : List String := splitOnDashAux s.data []

/-- `generateQuotationNumber` from `src/services/quotationService.js`.
The database is modelled as the list of already-stored quotation numbers.
The source queries `findOne` for numbers beginning with the day's
`QT-YYYYMMDD-` stamp, sorted descending, i.e. it reads the
lexicographically greatest stored number with that stamp, then parses the
digits after the final dash and adds one.  The read is a plain query with
no serialization against concurrent writers, so the function is
deterministic in the snapshot it reads.  `none` models the `NaN` path of
`parseInt`. -/
def generateQuotationNumber (dateStamp : String) (existing : List String) :
    Option String :=
  let pre := "QT-" ++ dateStamp ++ "-"
  let matching := existing.filter (fun s => leadsWith pre.data s.data)
  let latest : Option String :=
    matching.foldl
      (fun acc s =>
        match acc with
        | none => some s
        | some m => if charListLt m.data s.data then some s else some m)
      none
  match latest with
  | none => some (pre ++ padStart4 (toString 1))
  | some q =>
      match jsParseIntNat ((splitOnDash q).getLastD "") with
      | none => none
      | some lastSeq => some (pre ++ padStart4 (toString (lastSeq + 1)))

/-- Two concurrent calls of `generateQuotationNumber` whose unserialized
`findOne` reads both happen against the same database snapshot (the racy
schedule: both reads precede both inserts). -/
def concurrentGeneratePair (dateStamp : String) (snapshot : List String) :
    Option String × Option String :=
  (generateQuotationNumber dateStamp snapshot,
   generateQuotationNumber dateStamp snapshot)

/-- `generateQuotationNumber` from `src/services/matchingService.js`:
the `QT-` stamp followed by the final six characters of the decimal
representation of `Date.now()`. -/
def generateQuotationNumberTS (dateStamp : String) (nowMs : Nat) : String :=
  let t := toString nowMs
  "QT-" ++ dateStamp ++ "-" ++ t.drop (t.length - min 6 t.length)

/-- C4 evidence: on the snapshot holding `QT-20261011-0001`, two concurrent
creation calls (both reading before either insert) both return
`QT-20261011-0002` — the numbers collide instead of being pairwise
distinct; likewise two calls of the timestamp-based variant within the
same millisecond return the same number. -/
theorem concurrent_generation_collides :
    concurrentGeneratePair "20261011" ["QT-20261011-0001"] =
      (some "QT-20261011-0002", some "QT-20261011-0002") ∧
    generateQuotationNumberTS "20261011" 1760140800123 = "QT-20261011-800123" ∧
    generateQuotationNumberTS "20261011" 1760140800123 =
      generateQuotationNumberTS "20261011" 1760140800123 := by
  refine ⟨?_, rfl, rfl⟩
  decide

/-! ## Line parser (`src/src/utils/smartProductMatcher.js`,
`parseOCRText`, `cleanProductText`, `isNoise`)

The five regular expressions of `parseOCRText` are hand-compiled into
structurally recursive functions.  Each lazy capture `(.+?)` becomes a
search for the least split position; the greedy pieces (`\s*`, `\d+`,
character classes) never need backtracking against their successors here
because no whitespace is a separator or digit, so maximal munch is exact. -/

/-- ASCII lower-casing on a character list (JavaScript `toLowerCase` for
the ASCII inputs handled here); `String.toLower` itself is avoided only
because its implementation does not reduce inside the kernel. -/
def lowerChars (l : List Char) : List Char := l.map Char.toLower

def strToLower (s : String) : String := String.mk (lowerChars s.data)

/-- JavaScript `\s`. -/
def isWs (c : Char) : Bool := c.isWhitespace

/-- The separator class `[-–x]` of the first pattern under the `i` flag. -/
def isSepChar (c : Char) : Bool := c = '-' || c = '–' || c = 'x' || c = 'X'

def dropWs (l : List Char) : List Char := l.dropWhile isWs

/-- Numeric value of a run of decimal digits (`parseInt` on a `\d+` group). -/
def digitsVal (ds : List Char) : Nat :=
  ds.foldl (fun n c => n * 10 + (c.toNat - '0'.toNat)) 0

/-- JavaScript `String.prototype.trim` on a character list. -/
def trimChars (l : List Char) : List Char :=
  ((l.dropWhile isWs).reverse.dropWhile isWs).reverse

/-- After the lazy capture of pattern 1, the rest must read
`\s* [-–x] \s* (\d+)` (the trailing optional unit word is unanchored and
never constrains the match); returns the digit group. -/
def pat1Tail (rest : List Char) : Option (List Char) :=
  match dropWs rest with
  | [] => none
  | c :: r2 =>
      if isSepChar c then
        let r3 := dropWs r2
        let ds := r3.takeWhile Char.isDigit
        if ds.isEmpty then none else some ds
      else none

def pat1Aux (acc : List Char) : List Char → Option (List Char × List Char)
  | [] => none
  | c :: rest =>
      match pat1Tail rest with
      | some ds => some ((c :: acc).reverse, ds)
      | none => pat1Aux (c :: acc) rest

/-- Pattern 1, `^(.+?)\s*[-–x]\s*(\d+)\s*(?:nos?|pcs?|units?)?` with the
`i` flag: least nonempty capture followed by a separator and digits.
Returns `(capture, digit group)`. -/
def pat1 (line : List Char) : Option (List Char × List Char) := pat1Aux [] line

/-- Pattern 2, `^(\d+)\s*[x-]\s*(.+?)$` with the `i` flag: leading digits,
then `x`/`X`/`-`, then a nonempty remainder.  (A remainder of pure
whitespace would match in JavaScript with a whitespace capture, which the
caller's `.trim()`-then-length check discards exactly as `none` is
discarded here.)  Returns `(digit group, remainder)`. -/
def pat2 (line : List Char) : Option (List Char × List Char) :=
  let ds := line.takeWhile Char.isDigit
  if ds.isEmpty then none
  else
    match dropWs (line.drop ds.length) with
    | [] => none
    | c :: r2 =>
        if c = 'x' || c = 'X' || c = '-' then
          let r3 := dropWs r2
          if r3.isEmpty then none else some (ds, r3)
        else none

/-- The optional trailing unit of pattern 3: after skipping whitespace the
remainder must be empty or one of the unit words, case-insensitively. -/
def unitTailOk (rest : List Char) : Bool :=
  let r := dropWs rest
  let w := strToLower (String.mk r)
  r.isEmpty || w == "no" || w == "nos" || w == "pc" || w == "pcs" ||
    w == "unit" || w == "units"

/-- After the lazy capture of pattern 3, the rest must read
`\s+ (\d+) \s* (?:nos?|pcs?|units?)? $`; returns the digit group. -/
def pat3Tail (rest : List Char) : Option (List Char) :=
  let ws := rest.takeWhile isWs
  if ws.isEmpty then none
  else
    let r1 := rest.drop ws.length
    let ds := r1.takeWhile Char.isDigit
    if ds.isEmpty then none
    else if unitTailOk (r1.drop ds.length) then some ds else none

def pat3Aux (acc : List Char) : List Char → Option (List Char × List Char)
  | [] => none
  | c :: rest =>
      match pat3Tail rest with
      | some ds => some ((c :: acc).reverse, ds)
      | none => pat3Aux (c :: acc) rest

/-- Pattern 3, `^(.+?)\s+(\d+)\s*(?:nos?|pcs?|units?)?$` with the `i`
flag.  Returns `(capture, digit group)`. -/
def pat3 (line : List Char) : Option (List Char × List Char) := pat3Aux [] line

/-- The class `[A-Z0-9\s.]` of pattern 4 under the `i` flag. -/
def isP4Class (c : Char) : Bool := c.isAlpha || c.isDigit || isWs c || c = '.'

/-- Pattern 4, `^([A-Z0-9\s.]+)\s*[-–]\s*(.+)$` with the `i` flag: a
maximal class run (the dash is outside the class, so the run is exact),
then a dash, then a nonempty remainder.  Returns `(capture, remainder)`. -/
def pat4 (line : List Char) : Option (List Char × List Char) :=
  let run := line.takeWhile isP4Class
  if run.isEmpty then none
  else
    match line.drop run.length with
    | [] => none
    | c :: r2 =>
        if c = '-' || c = '–' then
          let r3 := dropWs r2
          if r3.isEmpty then none else some (run, r3)
        else none

/-- JavaScript `\w`. -/
def isWordChar (c : Char) : Bool := c.isAlphanum || c = '_'

/-- `.replace(/[^\w\s.-]/g, ' ')` on one character. -/
def keepOrSpace (c : Char) : Char :=
  if isWordChar c || isWs c || c = '.' || c = '-' then c else ' '

/-- `.replace(/\s+/g, ' ')`: each maximal whitespace run becomes one
space.  The flag records whether the previous kept character was part of
a whitespace run. -/
def collapseWsAux : List Char → Bool → List Char
  | [], _ => []
  | c :: rest, prevWs =>
      if isWs c then
        if prevWs then collapseWsAux rest true
        else ' ' :: collapseWsAux rest true
      else c :: collapseWsAux rest false

/-- `cleanProductText`: strip punctuation other than word characters,
whitespace, dots and hyphens; collapse whitespace; trim; lower-case. -/
def cleanProductText (s : String) : String :=
  strToLower (String.mk (trimChars (collapseWsAux (s.data.map keepOrSpace) false)))

/-- The words of the first noise pattern
(`total|subtotal|amount|price|qty|quantity|s\.?no|sr\.?no`). -/
def noiseWords1 : List String :=
  ["total", "subtotal", "amount", "price", "qty", "quantity",
   "s.no", "sno", "sr.no", "srno"]

/-- The words of the second noise pattern (`from|to|page|date`). -/
def noiseWords2 : List String := ["from", "to", "page", "date"]

/-- `isNoise`: the trimmed line equals a known header word
(case-insensitively), or is all digits, or is a separator run. -/
def isNoise (line : String) : Bool :=
  let t := trimChars line.data
  let tl := strToLower (String.mk t)
  noiseWords1.any (fun w => tl == w) ||
  noiseWords2.any (fun w => tl == w) ||
  (!t.isEmpty && t.all Char.isDigit) ||
  (!t.isEmpty && t.all (fun c => c = '-' || c = '=' || c = '_'))

/-- One parsed line item, as pushed by `parseOCRText`.  Items produced by
a structural pattern carry `matchedByOCR = true`; the fallback for
unmatched lines carries `matchedByOCR = false` and
`requiresManualReview = true`. -/
structure ParsedItem where
  originalText : String
  productText : String
  quantity : Nat
  lineNumber : Nat
  matchedByOCR : Bool
  requiresManualReview : Bool
deriving Repr, DecidableEq

/-- For one (already trimmed) line, the `(productText, quantity)` pair for
each pattern that matches, in pattern order.  Pattern 2 is the
quantity-first branch (`quantity = parseInt(match[1])`, with no fallback
for zero); patterns 1 and 3 use `parseInt(match[2]) || 1`, so a zero
group becomes 1; patterns 4 and 5 leave quantity at its initial 1. -/
def patternCandidates (line : String) : List (String × Nat) :=
  let l := line.data
  (match pat1 l with
   | some (cap, ds) =>
       [(String.mk (trimChars cap), if digitsVal ds = 0 then 1 else digitsVal ds)]
   | none => []) ++
  (match pat2 l with
   | some (ds, cap) => [(String.mk (trimChars cap), digitsVal ds)]
   | none => []) ++
  (match pat3 l with
   | some (cap, ds) =>
       [(String.mk (trimChars cap), if digitsVal ds = 0 then 1 else digitsVal ds)]
   | none => []) ++
  (match pat4 l with
   | some (cap, _) => [(String.mk (trimChars cap), 1)]
   | none => []) ++
  (if l.isEmpty then [] else [(String.mk (trimChars l), 1)])

/-- The body of the per-line loop of `parseOCRText`: the first pattern
whose (trimmed) product text is longer than 2 characters wins and yields
an item; otherwise the fallback fires when the line is longer than 2
characters and is not noise. -/
def parseLine (lineNumber : Nat) (line : String) : Option ParsedItem :=
  match (patternCandidates line).find? (fun pc => pc.1.length > 2) with
  | some (t, q) => some ⟨line, cleanProductText t, q, lineNumber, true, false⟩
  | none =>
      if line.length > 2 && !isNoise line then
        some ⟨line, cleanProductText line, 1, lineNumber, false, true⟩
      else none

/-- JavaScript `text.split('\n')`. -/
def splitOnNLAux : List Char → List Char → List String
  | [], acc => [String.mk acc.reverse]
  | c :: cs, acc =>
      if c = '\n' then String.mk acc.reverse :: splitOnNLAux cs []
      else splitOnNLAux cs (c :: acc)

/-- `parseOCRText`: split on line breaks, keep lines whose trimmed length
exceeds 2, then run the per-line pattern loop on each trimmed line (line
numbers are 1-based over the kept lines). -/
def parseOCRText (text : String) : List ParsedItem :=
  let lines := (splitOnNLAux text.data []).filter
    (fun l => (trimChars l.data).length > 2)
  lines.enum.filterMap
    (fun il => parseLine (il.1 + 1) (String.mk (trimChars il.2.data)))

/-- C7 evidence: the line `total` is on the noise denylist
(`isNoise "total" = true`), yet `parseOCRText` emits a `ParsedItem` for
it — the catch-all pattern `^(.+)$` matches before the fallback branch
that alone consults `isNoise`.  The same happens for a pure number and
for a separator run. -/
theorem noise_lines_yield_items :
    isNoise "total" = true ∧
    parseOCRText "total" = [⟨"total", "total", 1, 1, true, false⟩] ∧
    isNoise "12345" = true ∧
    parseOCRText "12345" = [⟨"12345", "12345", 1, 1, true, false⟩] ∧
    isNoise "-----" = true ∧
    parseOCRText "-----" = [⟨"-----", "-----", 1, 1, true, false⟩] := by
  refine ⟨rfl, ?_, rfl, ?_, rfl, ?_⟩ <;> decide

/-- C8 evidence: on the line `0 x widget` the quantity-first pattern
`^(\d+)\s*[x-]\s*(.+?)$` captures the digit group `0` and the code stores
`parseInt("0") = 0` without the `|| 1` fallback used by the other
branches, so the emitted item has quantity 0, not a positive integer.
When no numeric group is present the default 1 is used, as on `widget`. -/
theorem zero_quantity_item :
    parseOCRText "0 x widget" = [⟨"0 x widget", "widget", 0, 1, true, false⟩] ∧
    parseOCRText "widget" = [⟨"widget", "widget", 1, 1, true, false⟩] := by
  constructor <;> decide

/-! ## Catalog matcher (`src/src/utils/smartProductMatcher.js`,
`findMatches`, `findCategoryMatches`, `findKeywordMatches`, and the
per-item step of `processOCRText`)

The Fuse.js similarity search is external to the repository; it is
modelled as a parameter `fuse : String → List FuseResult` producing the
scored results of `this.fuse.search(text)` (Fuse returns normalized
scores in `[0,1]`, which theorems take as a hypothesis where needed). -/

/-- A catalog product, with the fields the matcher reads. -/
structure Product where
  name : String
  catalogNumber : String
  description : String
  categories : List String
  price : ℚ
deriving Repr, DecidableEq

/-- One scored result of `fuse.search`. -/
structure FuseResult where
  product : Product
  score : ℚ
deriving Repr, DecidableEq

/-- One element of `results.fuzzyMatches`. -/
structure FuzzyMatch where
  product : Product
  confidence : ℚ
  score : ℚ
deriving Repr, DecidableEq

/-- One element of `results.categoryMatches`. -/
structure CategoryMatch where
  category : String
  products : List Product
  matchedKeywords : List String
deriving Repr, DecidableEq

/-- One element of `results.keywordMatches`. -/
structure KeywordMatch where
  kwType : String
  keywords : List String
  products : List Product
deriving Repr, DecidableEq

/-- The `results` object of `findMatches`. -/
structure MatchResults where
  exactMatch : Option Product
  fuzzyMatches : List FuzzyMatch
  categoryMatches : List CategoryMatch
  keywordMatches : List KeywordMatch
  confidence : ℚ
deriving Repr, DecidableEq

/-- Whether `pat` occurs as a contiguous substring of `hay`
(JavaScript `String.prototype.includes`, arguments reversed). -/
def listContains (pat : List Char) : List Char → Bool
  | [] => leadsWith pat []
  | c :: rest => leadsWith pat (c :: rest) || listContains pat rest

/-- `s.includes(t)`. -/
def strIncludes (s t : String) : Bool := listContains t.data s.data

/-- The `categoryKeywords` table of `findCategoryMatches`. -/
def categoryKeywords : List (String × List String) :=
  [("switch", ["switch", "switches"]),
   ("socket", ["socket", "sockets", "outlet"]),
   ("light", ["light", "lighting", "lamp", "bulb"]),
   ("fan", ["fan", "regulator"]),
   ("dimmer", ["dimmer", "dimming"]),
   ("indicator", ["indicator", "led"]),
   ("buzzer", ["buzzer", "bell", "alarm"]),
   ("usb", ["usb", "charger"]),
   ("telephone", ["telephone", "phone", "rj11"]),
   ("data", ["data", "ethernet", "rj45", "network"]),
   ("tv", ["tv", "television", "coaxial"]),
   ("audio", ["audio", "speaker", "music"])]

/-- `findCategoryMatches`: for each category whose keywords occur in the
lowered text, the products tagged with (or named after) that category,
capped at 10, with the keywords that fired. -/
def findCategoryMatches (products : List Product) (text : String) :
    List CategoryMatch :=
  let lowerText := strToLower text
  categoryKeywords.filterMap fun ck =>
    if ck.2.any (fun k => strIncludes lowerText k) then
      let categoryProducts := products.filter fun p =>
        p.categories.any (fun cat => strIncludes (strToLower cat) ck.1) ||
        strIncludes (strToLower p.name) ck.1
      if categoryProducts.isEmpty then none
      else some ⟨ck.1, categoryProducts.take 10,
                 ck.2.filter (fun k => strIncludes lowerText k)⟩
    else none

/-- The `technicalKeywords` table of `findKeywordMatches`. -/
def technicalKeywords : List (String × List String) :=
  [("amperage", ["6a", "16a", "25a", "13a"]),
   ("modules", ["1 module", "2 module", "3 module", "4 module"]),
   ("way", ["one-way", "two-way", "one way", "two way"]),
   ("voltage", ["220v", "110v", "240v"]),
   ("wattage", ["80w", "100w", "500w"])]

/-- `findKeywordMatches`: for each technical-attribute family whose tokens
occur in the lowered text, the products whose name or description
contains one of the found tokens, capped at 10. -/
def findKeywordMatches (products : List Product) (text : String) :
    List KeywordMatch :=
  let lowerText := strToLower text
  technicalKeywords.filterMap fun tk =>
    let foundKeywords := tk.2.filter (fun k => strIncludes lowerText k)
    if foundKeywords.isEmpty then none
    else
      let keywordProducts := products.filter fun p =>
        foundKeywords.any fun k =>
          strIncludes (strToLower p.name) k ||
          strIncludes (strToLower p.description) k
      if keywordProducts.isEmpty then none
      else some ⟨tk.1, foundKeywords, keywordProducts.take 10⟩

/-- `findMatches`: exact tier first (case-insensitive equality of the text
with a product name or catalog number; the first such product wins,
confidence 1.0, and the function returns at once, leaving the other tiers
untouched); otherwise fuzzy results (top 5, confidence `1 − score`), then
category matches (floor 0.3) and keyword matches (floor 0.4) raise the
running `Math.max` confidence. -/
def findMatches (products : List Product) (fuse : String → List FuseResult)
    (productText : String) : MatchResults :=
  match products.find? (fun p =>
      strToLower p.name == strToLower productText ||
      strToLower p.catalogNumber == strToLower productText) with
  | some p =>
      { exactMatch := some p, fuzzyMatches := [], categoryMatches := [],
        keywordMatches := [], confidence := 1 }
  | none =>
      let fuzzyResults := fuse productText
      let fuzzyMatches := (fuzzyResults.take 5).map
        fun r => (⟨r.product, 1 - r.score, r.score⟩ : FuzzyMatch)
      let conf1 : ℚ :=
        match fuzzyResults with
        | [] => 0
        | r :: _ => max 0 (1 - r.score)
      let categoryMatches := findCategoryMatches products productText
      let conf2 := if categoryMatches.isEmpty then conf1 else max conf1 (3/10)
      let keywordMatches := findKeywordMatches products productText
      let conf3 := if keywordMatches.isEmpty then conf2 else max conf2 (4/10)
      { exactMatch := none, fuzzyMatches := fuzzyMatches,
        categoryMatches := categoryMatches, keywordMatches := keywordMatches,
        confidence := conf3 }

/-- One element of the `processedItems` array built by `processOCRText`
(the `stats` and `suggestions` outputs are not needed by any claim and
are omitted). -/
structure ProcessedOCRItem where
  item : ParsedItem
  bestMatch : Option Product
  price : ℚ
  confidence : ℚ
  allMatches : MatchResults
  requiresReview : Bool
deriving Repr, DecidableEq

/-- The per-item body of `processOCRText`: an exact match is taken with
confidence 1.0; otherwise the top fuzzy candidate is taken as best match
only when its confidence exceeds 0.7; otherwise no best match and the
confidence of `findMatches` stands.  `requiresReview` is
`confidence < 0.8 || !bestMatch`. -/
def processParsedItem (products : List Product)
    (fuse : String → List FuseResult) (it : ParsedItem) : ProcessedOCRItem :=
  let m := findMatches products fuse it.productText
  let bpc : Option Product × ℚ × ℚ :=
    match m.exactMatch with
    | some p => (some p, p.price, 1)
    | none =>
        match m.fuzzyMatches with
        | fm :: _ =>
            if fm.confidence > 7/10 then (some fm.product, fm.product.price, fm.confidence)
            else (none, 0, m.confidence)
        | [] => (none, 0, m.confidence)
  { item := it, bestMatch := bpc.1, price := bpc.2.1, confidence := bpc.2.2,
    allMatches := m,
    requiresReview := decide (bpc.2.2 < 4/5) || bpc.1.isNone }

/-- The `processedItems` field of the result of `processOCRText`: parse
the text, then run the matcher step on every parsed item. -/
def processOCRText (products : List Product)
    (fuse : String → List FuseResult) (text : String) : List ProcessedOCRItem :=
  (parseOCRText text).map (processParsedItem products fuse)

theorem find?_eq_of_unique {α : Type} (l : List α) (pred : α → Bool) (p : α)
    (hmem : p ∈ l) (hp : pred p = true)
    (huniq : ∀ q ∈ l, pred q = true → q = p) :
    l.find? pred = some p := by
  induction l with
  | nil => cases hmem
  | cons x rest ih =>
      cases hx : pred x with
      | true =>
          have hxp : x = p := huniq x (List.mem_cons_self x rest) hx
          subst hxp
          exact List.find?_cons_of_pos rest hx
      | false =>
          have hxp : x ≠ p := by
            intro h
            rw [h, hp] at hx
            exact Bool.noConfusion hx
          have hmem' : p ∈ rest := by
            cases List.mem_cons.mp hmem with
            | inl h => exact absurd h.symm hxp
            | inr h => exact h
          rw [List.find?_cons_of_neg rest (by simp [hx])]
          exact ih hmem' fun q hq hpq => huniq q (List.mem_cons_of_mem x hq) hpq

/-- C3 (amended): when `p` is the unique product whose name or catalog
number equals the query case-insensitively, `findMatches` returns `p` as
the exact match with confidence exactly 1, and the fuzzy, category and
keyword tiers are left untouched (empty), whatever the fuzzy search
function would have returned — the exact tier short-circuits them. -/
theorem findMatches_exact_tier (products : List Product)
    (fuse : String → List FuseResult) (query : String) (p : Product)
    (hmem : p ∈ products)
    (hq : strToLower p.name = strToLower query ∨
          strToLower p.catalogNumber = strToLower query)
    (huniq : ∀ q ∈ products,
      (strToLower q.name = strToLower query ∨
       strToLower q.catalogNumber = strToLower query) → q = p) :
    findMatches products fuse query =
      { exactMatch := some p, fuzzyMatches := [], categoryMatches := [],
        keywordMatches := [], confidence := 1 } := by
  have hfind : products.find? (fun q =>
      strToLower q.name == strToLower query ||
      strToLower q.catalogNumber == strToLower query) = some p := by
    apply find?_eq_of_unique _ _ _ hmem
    · cases hq with
      | inl h => simp [h]
      | inr h => simp [h]
    · intro q hqmem hpred
      apply huniq q hqmem
      simpa using hpred
  simp only [findMatches, hfind]

/-- A catalog product used in concrete instances. -/
def prodA : Product := ⟨"wire", "CAT-A", "", [], 100⟩

/-- A second product with the same display name as `prodA`. -/
def prodDup : Product := ⟨"wire", "CAT-B", "", [], 200⟩

theorem findMatches_exact_tier_witness :
    (prodA ∈ [prodA] ∧
     (strToLower prodA.name = strToLower "WIRE" ∨
      strToLower prodA.catalogNumber = strToLower "WIRE") ∧
     (∀ q ∈ [prodA],
       (strToLower q.name = strToLower "WIRE" ∨
        strToLower q.catalogNumber = strToLower "WIRE") → q = prodA)) ∧
    findMatches [prodA] (fun _ => []) "WIRE" =
      { exactMatch := some prodA, fuzzyMatches := [], categoryMatches := [],
        keywordMatches := [], confidence := 1 } :=
  ⟨⟨List.mem_singleton.mpr rfl, Or.inl rfl,
    fun q hq _ => List.mem_singleton.mp hq⟩,
   findMatches_exact_tier [prodA] (fun _ => []) "WIRE" prodA
     (List.mem_singleton.mpr rfl) (Or.inl rfl)
     (fun q hq _ => List.mem_singleton.mp hq)⟩

/-- C3 counterexample: with two distinct catalog products both named
`wire`, querying that name returns the *first* of them, not the product
`prodDup` whose name was queried — so "the matcher returns P" fails as
soon as P is shadowed by an earlier product with the same name. -/
theorem findMatches_exact_not_always_P :
    prodDup ∈ [prodA, prodDup] ∧
    strToLower prodDup.name = strToLower "Wire" ∧
    (findMatches [prodA, prodDup] (fun _ => []) "Wire").exactMatch = some prodA ∧
    (findMatches [prodA, prodDup] (fun _ => []) "Wire").exactMatch ≠ some prodDup := by
  refine ⟨by simp, rfl, rfl, ?_⟩
  intro h
  have hsame : prodA = prodDup := Option.some.inj h
  have h2 := congrArg Product.catalogNumber hsame
  simp [prodA, prodDup] at h2

/-- C5 (amended): when the exact tier fails, the top fuzzy candidate is
selected as the single best match exactly when its confidence
(1 − normalized score) is *strictly greater than 0.7* — the threshold in
`processOCRText` is `> 0.7`, not the 0.6 acceptance band; below it no
best match is selected (the candidate is only kept among
`fuzzyMatches`/suggestions) and the confidence of `findMatches` stands. -/
theorem processParsedItem_fuzzy_threshold (products : List Product)
    (fuse : String → List FuseResult) (it : ParsedItem) (fm : FuzzyMatch)
    (hexact : (findMatches products fuse it.productText).exactMatch = none)
    (hhead : (findMatches products fuse it.productText).fuzzyMatches.head? = some fm) :
    ((processParsedItem products fuse it).bestMatch = some fm.product ↔
      fm.confidence > 7/10) ∧
    (fm.confidence > 7/10 →
      (processParsedItem products fuse it).confidence = fm.confidence) ∧
    (¬ fm.confidence > 7/10 →
      (processParsedItem products fuse it).bestMatch = none ∧
      (processParsedItem products fuse it).confidence =
        (findMatches products fuse it.productText).confidence) := by
  cases hfm : (findMatches products fuse it.productText).fuzzyMatches with
  | nil => rw [hfm] at hhead; cases hhead
  | cons a rest =>
      rw [hfm] at hhead
      simp only [List.head?_cons, Option.some.injEq] at hhead
      subst hhead
      by_cases hc : a.confidence > 7/10
      · simp [processParsedItem, hexact, hfm, hc]
      · simp [processParsedItem, hexact, hfm, hc]

/-- The parsed item used in concrete matcher instances; its product text
matches nothing in the one-product catalog `[prodA]` exactly. -/
def widgetItem : ParsedItem := ⟨"widget", "widget", 1, 1, true, false⟩

/-- A fuzzy search returning one candidate with normalized score 0.25
(confidence 0.75). -/
def fuseGood : String → List FuseResult := fun _ => [⟨prodA, 1/4⟩]

/-- The fuzzy match that `findMatches` builds from `fuseGood`. -/
def fmGood : FuzzyMatch := ⟨prodA, 1 - 1/4, 1/4⟩

theorem processParsedItem_fuzzy_threshold_witness :
    ((findMatches [prodA] fuseGood widgetItem.productText).exactMatch = none ∧
     (findMatches [prodA] fuseGood widgetItem.productText).fuzzyMatches.head? =
       some fmGood) ∧
    (((processParsedItem [prodA] fuseGood widgetItem).bestMatch = some fmGood.product ↔
        fmGood.confidence > 7/10) ∧
     (fmGood.confidence > 7/10 →
        (processParsedItem [prodA] fuseGood widgetItem).confidence = fmGood.confidence) ∧
     (¬ fmGood.confidence > 7/10 →
        (processParsedItem [prodA] fuseGood widgetItem).bestMatch = none ∧
        (processParsedItem [prodA] fuseGood widgetItem).confidence =
          (findMatches [prodA] fuseGood widgetItem.productText).confidence)) :=
  ⟨⟨rfl, rfl⟩,
   processParsedItem_fuzzy_threshold [prodA] fuseGood widgetItem fmGood rfl rfl⟩

/-- A fuzzy search returning one candidate with normalized score 0.35,
i.e. similarity-derived confidence 0.65 — inside the claimed ≥ 0.6
acceptance band and inside Fuse's 0.4 threshold. -/
def fuseMid : String → List FuseResult := fun _ => [⟨prodA, 7/20⟩]

/-- C5 counterexample: a top fuzzy candidate with confidence
0.65 ≥ 0.6 is *not* accepted as best match (the code requires > 0.7):
`bestMatch` stays `none` although the claim says such a candidate is
selected. -/
theorem fuzzy_acceptance_counterexample :
    (findMatches [prodA] fuseMid widgetItem.productText).exactMatch = none ∧
    (findMatches [prodA] fuseMid widgetItem.productText).fuzzyMatches.head? =
      some ⟨prodA, 1 - 7/20, 7/20⟩ ∧
    ((1 : ℚ) - 7/20 ≥ 3/5) ∧
    (processParsedItem [prodA] fuseMid widgetItem).bestMatch = none := by
  have hc : ¬ ((⟨prodA, 1 - 7/20, 7/20⟩ : FuzzyMatch).confidence > 7/10) := by
    norm_num
  refine ⟨rfl, rfl, by norm_num, ?_⟩
  have hfm : (findMatches [prodA] fuseMid widgetItem.productText).fuzzyMatches =
      [⟨prodA, 1 - 7/20, 7/20⟩] := rfl
  have hexact : (findMatches [prodA] fuseMid widgetItem.productText).exactMatch = none := rfl
  simp [processParsedItem, hexact, hfm, hc]

theorem max_floor_step_bounds (c q : ℚ) (b : Bool)
    (hc : 0 ≤ c ∧ c ≤ 1) (hq : 0 ≤ q ∧ q ≤ 1) :
    0 ≤ (if b then c else max c q) ∧ (if b then c else max c q) ≤ 1 := by
  cases b with
  | true => simpa using hc
  | false =>
      constructor
      · exact le_max_of_le_left hc.1
      · exact max_le hc.2 hq.2

theorem findMatches_confidence_bounds (products : List Product)
    (fuse : String → List FuseResult) (t : String)
    (hfuse : ∀ r ∈ fuse t, 0 ≤ r.score ∧ r.score ≤ 1) :
    0 ≤ (findMatches products fuse t).confidence ∧
    (findMatches products fuse t).confidence ≤ 1 := by
  unfold findMatches
  cases hfind : products.find? (fun p =>
      strToLower p.name == strToLower t ||
      strToLower p.catalogNumber == strToLower t) with
  | some p => norm_num
  | none =>
      simp only
      have hconf1 : 0 ≤ (match fuse t with
          | [] => (0 : ℚ)
          | r :: _ => max 0 (1 - r.score)) ∧
          (match fuse t with
          | [] => (0 : ℚ)
          | r :: _ => max 0 (1 - r.score)) ≤ 1 := by
        cases hfr : fuse t with
        | nil => norm_num
        | cons r rest =>
            have hr := hfuse r (hfr ▸ List.mem_cons_self r rest)
            constructor
            · exact le_max_left 0 _
            · refine max_le (by norm_num) ?_
              linarith [hr.1]
      have h2 := max_floor_step_bounds _ (3/10)
        (findCategoryMatches products t).isEmpty hconf1 (by norm_num)
      have h3 := max_floor_step_bounds _ (4/10)
        (findKeywordMatches products t).isEmpty h2 (by norm_num)
      exact h3

theorem findMatches_fuzzy_head_bounds (products : List Product)
    (fuse : String → List FuseResult) (t : String) (fm : FuzzyMatch)
    (hfuse : ∀ r ∈ fuse t, 0 ≤ r.score ∧ r.score ≤ 1)
    (hhead : (findMatches products fuse t).fuzzyMatches.head? = some fm) :
    0 ≤ fm.confidence ∧ fm.confidence ≤ 1 := by
  unfold findMatches at hhead
  cases hfind : products.find? (fun p =>
      strToLower p.name == strToLower t ||
      strToLower p.catalogNumber == strToLower t) with
  | some p => rw [hfind] at hhead; cases hhead
  | none =>
      rw [hfind] at hhead
      simp only at hhead
      cases hfr : fuse t with
      | nil => rw [hfr] at hhead; cases hhead
      | cons r rest =>
          rw [hfr] at hhead
          simp only [List.take_succ_cons, List.map_cons, List.head?_cons,
            Option.some.injEq] at hhead
          have hr := hfuse r (hfr ▸ List.mem_cons_self r rest)
          rw [← hhead]
          constructor
          · simp only
            linarith [hr.2]
          · simp only
            linarith [hr.1]

/-- C6: every item in the pipeline output has a confidence in [0,1]
(given that the Fuse.js scores it is handed are normalized to [0,1], as
Fuse guarantees), and `requiresReview` is true exactly when
`confidence < 0.8` or no best-match product was selected. -/
theorem processed_confidence_review (products : List Product)
    (fuse : String → List FuseResult) (text : String) (out : ProcessedOCRItem)
    (hfuse : ∀ t : String, ∀ r ∈ fuse t, 0 ≤ r.score ∧ r.score ≤ 1)
    (hout : out ∈ processOCRText products fuse text) :
    (0 ≤ out.confidence ∧ out.confidence ≤ 1) ∧
    (out.requiresReview = true ↔
      (out.confidence < 4/5 ∨ out.bestMatch = none)) := by
  obtain ⟨it, _, rfl⟩ := List.mem_map.mp hout
  cases hex : (findMatches products fuse it.productText).exactMatch with
  | some p =>
      constructor
      · simp [processParsedItem, hex]
      · simp [processParsedItem, hex]
  | none =>
      cases hfm : (findMatches products fuse it.productText).fuzzyMatches with
      | nil =>
          have hb := findMatches_confidence_bounds products fuse it.productText
            (hfuse it.productText)
          constructor
          · simpa [processParsedItem, hex, hfm] using hb
          · simp [processParsedItem, hex, hfm]
      | cons fm rest =>
          by_cases hc : fm.confidence > 7/10
          · have hb := findMatches_fuzzy_head_bounds products fuse it.productText fm
              (hfuse it.productText) (by rw [hfm]; rfl)
            constructor
            · simpa [processParsedItem, hex, hfm, hc] using hb
            · simp [processParsedItem, hex, hfm, hc]
          · have hb := findMatches_confidence_bounds products fuse it.productText
              (hfuse it.productText)
            constructor
            · simpa [processParsedItem, hex, hfm, hc] using hb
            · simp [processParsedItem, hex, hfm, hc]

theorem processed_confidence_review_witness :
    ((∀ t : String, ∀ r ∈ fuseGood t, 0 ≤ r.score ∧ r.score ≤ 1) ∧
     processParsedItem [prodA] fuseGood widgetItem ∈
       processOCRText [prodA] fuseGood "widget") ∧
    ((0 ≤ (processParsedItem [prodA] fuseGood widgetItem).confidence ∧
      (processParsedItem [prodA] fuseGood widgetItem).confidence ≤ 1) ∧
     ((processParsedItem [prodA] fuseGood widgetItem).requiresReview = true ↔
       ((processParsedItem [prodA] fuseGood widgetItem).confidence < 4/5 ∨
        (processParsedItem [prodA] fuseGood widgetItem).bestMatch = none))) :=
  have hfuse : ∀ t : String, ∀ r ∈ fuseGood t, 0 ≤ r.score ∧ r.score ≤ 1 := by
    intro t r hr
    simp only [fuseGood, List.mem_singleton] at hr
    subst hr
    constructor <;> norm_num
  have hout : processParsedItem [prodA] fuseGood widgetItem ∈
      processOCRText [prodA] fuseGood "widget" :=
    List.mem_singleton.mpr rfl
  ⟨⟨hfuse, hout⟩,
   processed_confidence_review [prodA] fuseGood "widget" _ hfuse hout⟩
